import Mathlib

/-!
Verification of the trampoline repository (raulk/trampoline): a Go program
that drives heap allocation through a slab store and a scripted plan
computation. The definitions below are shallow embeddings of the Go
functions `add`, `release`, `reset`, `parseBytes` and the scripted-mode
plan arithmetic in main.go and its variants. Machine integers are modelled
as Int/Nat with explicit wrap-around where the source uses unsigned
subtraction; `make([]byte, n)` with a negative `n` (a runtime panic in Go)
is modelled by `Option`.
-/

set_option autoImplicit false

namespace Trampoline

/-- A slab is a byte buffer; bytes are modelled as naturals. -/
abbrev Slab := List Nat

/-- The global `data [][]byte` slice: an ordered sequence of slabs.
A `nil` entry left behind by `release` is the empty slab. -/
abbrev Store := List Slab

/-- Sum of the lengths of all retained slabs (the store total). -/
def totalBytes (d : Store) : Nat := (d.map List.length).sum

/-- Embedding of Go `add(bytes int)`: `make([]byte, bytes)` panics when
`bytes < 0` (modelled as `none`); otherwise every byte of the fresh slab
is set to the sentinel `1` and the slab is appended to `data`. -/
def add (bytes : Int) (d : Store) : Option Store :=
  if bytes < 0 then none
  else some (d ++ [List.replicate bytes.toNat 1])

/-- Embedding of the loop of Go `release`: walks the slabs in order while
`rem > 0`; a slab of length `l ≤ rem` is replaced by `nil` and `rem`
decreases by `l`; otherwise the slab is replaced by a fresh slab of
length `len(head) - rem` whose content `copy(slice, head)` takes from the
start of `head`, and `rem` becomes `0`. Returns the new store and the
final `rem`. -/
def releaseLoop (rem : Int) (d : Store) : Store × Int :=
  match d with
  | [] => ([], rem)
  | head :: rest =>
    if 0 < rem then
      if (head.length : Int) ≤ rem then
        let p := releaseLoop (rem - head.length) rest
        ([] :: p.1, p.2)
      else
        (head.take (head.length - rem.toNat) :: rest, 0)
    else
      (head :: rest, rem)

/-- Embedding of Go `release(bytes int) (released, notReleased int)`:
runs the loop and returns the new store, `bytes - rem` and `rem`. -/
def release (bytes : Int) (d : Store) : Store × Int × Int :=
  let p := releaseLoop bytes d
  (p.1, bytes - p.2, p.2)

/-- Embedding of Go `reset`: `data = nil`. -/
def reset (_ : Store) : Store := []

/-- Sequence of `add` calls, stopping at the first panic. -/
def addAll (ns : List Int) (d : Store) : Option Store :=
  match ns with
  | [] => some d
  | n :: rest =>
    match add n d with
    | none => none
    | some d2 => addAll rest d2

/-- Accumulating decimal-digit parser used by `atoi`: fails on the first
character outside `0`-`9`. -/
def digAcc : List Char → Nat → Option Nat
  | [], acc => some acc
  | c :: cs, acc =>
    if c.isDigit then digAcc cs (10 * acc + (c.toNat - 48)) else none

/-- Embedding of Go `strconv.Atoi`: an optional sign followed by at least
one decimal digit, with the 64-bit range check (out-of-range input yields
`ErrRange`, hence `none`); anything else is a syntax error. Note that a
leading minus sign is accepted, so negative integers parse successfully. -/
def atoi (s : String) : Option Int :=
  match s.toList with
  | [] => none
  | c :: cs =>
    let neg := c = '-'
    let ds := if c = '-' ∨ c = '+' then cs else c :: cs
    if ds.isEmpty then none
    else
      match digAcc ds 0 with
      | none => none
      | some n =>
        if neg then
          if n ≤ 2 ^ 63 then some (-(n : Int)) else none
        else
          if n ≤ 2 ^ 63 - 1 then some (n : Int) else none

/-- Embedding of Go `parseBytes(r)`: the first value of the `bytes` query
parameter, if present, is fed to `strconv.Atoi`; a missing parameter or a
parse failure is an error. -/
def parseBytes (q : Option String) : Except String Int :=
  match q with
  | none => Except.error "invalid bytes query parameter"
  | some s =>
    match atoi s with
    | none => Except.error "atoi failed"
    | some n => Except.ok n

/-- Whether a `parseBytes` result is an error. -/
def isErr (e : Except String Int) : Bool :=
  match e with
  | Except.error _ => true
  | Except.ok _ => false

/-- Outcome written to the HTTP response by the interactive handlers. -/
inductive Resp where
  | clientError : Resp
  | okAdd : Int → Resp
  | okRel : Int → Int → Resp
deriving DecidableEq

/-- Embedding of the interactive `/add` handler: on a parse error it
reports a 400 client error and leaves `data` untouched; otherwise it runs
`add` (which panics on a negative amount, modelled as `none`). -/
def handleAdd (q : Option String) (d : Store) : Option (Store × Resp) :=
  match parseBytes q with
  | Except.error _ => some (d, Resp.clientError)
  | Except.ok n => (add n d).map fun d2 => (d2, Resp.okAdd n)

/-- Embedding of the interactive `/rel` handler: on a parse error it
reports a 400 client error and leaves `data` untouched; otherwise it runs
`release` and reports both counters. -/
def handleRel (q : Option String) (d : Store) : Store × Resp :=
  match parseBytes q with
  | Except.error _ => (d, Resp.clientError)
  | Except.ok n =>
    let r := release n d
    (r.1, Resp.okRel r.2.1 r.2.2)

/-- Number of binary digits of `n`, with explicit fuel (enough for all
values arising from 64-bit inputs and their products). -/
def nbits : Nat → Nat → Nat
  | 0, _ => 0
  | f + 1, n => if n = 0 then 0 else nbits f (n / 2) + 1

/-- Round `a / b` to the nearest integer, ties to even: the IEEE-754
round-to-nearest-even rule that Go applies to float64 constants and
products. -/
def rneDiv (a b : Nat) : Nat :=
  let q := a / b
  let r := a % b
  if 2 * r < b then q
  else if b < 2 * r then q + 1
  else if q % 2 = 0 then q else q + 1

/-- Mantissa of the binary64 value nearest the Go constant `0.10`: since
`1/10` lies in `[2 ^ (-4), 2 ^ (-3))`, that value is
`rneDiv (2 ^ 56) 10 * 2 ^ (-56)` with a 53-bit mantissa. -/
def m01 : Nat := rneDiv (2 ^ 56) 10

/-- Round a natural to the nearest binary64 (round-to-nearest-even on the
53-bit mantissa); exact for `n < 2 ^ 53`. Models Go `float64(n)` for
non-negative `n`, and rounding of a product once scaled to an integer. -/
def froundNat (n : Nat) : Nat :=
  let b := nbits 200 n
  if b ≤ 53 then n else rneDiv n (2 ^ (b - 53)) * 2 ^ (b - 53)

/-- Embedding of `reserved = uint64(float64(L) * 0.10)` from scripted
mode: the exact product `float64(L) * 0.10` is
`(froundNat L * m01) * 2 ^ (-56)`; IEEE rounding of that product to
binary64 rounds its integer numerator to 53 significant bits (scaling by
a power of two commutes with rounding, and no overflow or subnormal
occurs for 64-bit `L`), and the `uint64` conversion truncates toward
zero, which on a non-negative value is floor, i.e. natural division. -/
def reservedGo (L : Nat) : Nat := froundNat (froundNat L * m01) / 2 ^ 56

/-- Wrapping `uint64` subtraction `a - b`, as Go computes it. -/
def wsub64 (a b : Nat) : Nat := (2 ^ 64 + a % 2 ^ 64 - b % 2 ^ 64) % 2 ^ 64

/-- Embedding of `available = uint64(*limit) - stats.HeapAlloc` from
scripted mode, with `A` the baseline `HeapAlloc` reading. -/
def availableGo (L A : Nat) : Nat := wsub64 L A

/-- Embedding of `fill = available - reserved` from scripted mode. -/
def fillGo (L A : Nat) : Nat := wsub64 (availableGo L A) (reservedGo L)

/-- The whole scripted-mode plan `(reserved, available, fill)`. The type
is total: the source has no error path, no guard, and no report for the
underflowing cases. -/
def planGo (L A : Nat) : Nat × Nat × Nat :=
  (reservedGo L, availableGo L A, fillGo L A)

theorem totalBytes_nil : totalBytes [] = 0 := rfl

theorem totalBytes_cons (s : Slab) (d : Store) :
    totalBytes (s :: d) = s.length + totalBytes d := by
  simp [totalBytes]

/-- The final `rem` of the release loop is `max 0 (rem - totalBytes d)`
whenever the requested amount is non-negative. -/
theorem releaseLoop_snd (d : Store) : ∀ rem : Int, 0 ≤ rem →
    (releaseLoop rem d).2 = max 0 (rem - totalBytes d) := by
  induction d with
  | nil =>
    intro rem h
    simp [releaseLoop, totalBytes]
    omega
  | cons head rest ih =>
    intro rem h
    rw [totalBytes_cons]
    by_cases hpos : 0 < rem
    · by_cases hge : (head.length : Int) ≤ rem
      · have := ih (rem - head.length) (by omega)
        simp only [releaseLoop, if_pos hpos, if_pos hge]
        rw [this]
        push_cast
        omega
      · simp only [releaseLoop, if_pos hpos, if_neg hge]
        have hT : (0 : Int) ≤ totalBytes rest := Int.natCast_nonneg _
        push_cast
        omega
    · simp only [releaseLoop, if_neg hpos]
      have hT : (0 : Int) ≤ totalBytes rest := Int.natCast_nonneg _
      have : rem = 0 := by omega
      subst this
      push_cast
      omega

/-- With a non-positive requested amount the loop body never runs, so the
store is returned unchanged together with the amount. -/
theorem releaseLoop_nonpos (d : Store) (rem : Int) (h : rem ≤ 0) :
    releaseLoop rem d = (d, rem) := by
  cases d with
  | nil => rfl
  | cons head rest =>
    have : ¬ 0 < rem := not_lt.mpr h
    simp [releaseLoop, this]

/-- When the requested amount covers the whole store, every slab is
replaced by `nil`, so the resulting store retains zero bytes. -/
theorem releaseLoop_total (d : Store) : ∀ rem : Int,
    (totalBytes d : Int) ≤ rem → totalBytes (releaseLoop rem d).1 = 0 := by
  induction d with
  | nil =>
    intro rem _
    simp [releaseLoop, totalBytes]
  | cons head rest ih =>
    intro rem h
    rw [totalBytes_cons] at h
    push_cast at h
    have hT : (0 : Int) ≤ totalBytes rest := Int.natCast_nonneg _
    by_cases hpos : 0 < rem
    · have hge : (head.length : Int) ≤ rem := by omega
      simp only [releaseLoop, if_pos hpos, if_pos hge]
      rw [totalBytes_cons]
      have := ih (rem - head.length) (by omega)
      simpa using this
    · have hrem : rem = 0 := by omega
      subst hrem
      have hhead : head.length = 0 := by omega
      have hrest : totalBytes rest = 0 := by omega
      simp only [releaseLoop, lt_irrefl, if_false]
      rw [totalBytes_cons, hhead, hrest]

theorem totalBytes_append (d : Store) (s : Slab) :
    totalBytes (d ++ [s]) = totalBytes d + s.length := by
  simp [totalBytes]

/-- Running a sequence of non-negative `add` calls never panics and grows
the store total by the sum of the amounts. -/
theorem addAll_total (ns : List Int) (h : ∀ n ∈ ns, 0 ≤ n) : ∀ d : Store,
    ∃ d2, addAll ns d = some d2 ∧ (totalBytes d2 : Int) = totalBytes d + ns.sum := by
  induction ns with
  | nil =>
    intro d
    exact ⟨d, rfl, by simp [addAll]⟩
  | cons n rest ih =>
    intro d
    have hn : 0 ≤ n := h n (by simp)
    have hrest : ∀ m ∈ rest, 0 ≤ m := fun m hm => h m (by simp [hm])
    obtain ⟨d2, hd2, htot⟩ := ih hrest (d ++ [List.replicate n.toNat 1])
    refine ⟨d2, ?_, ?_⟩
    · simp [addAll, add, not_lt.mpr hn, hd2]
    · rw [htot, totalBytes_append, List.length_replicate]
      push_cast [Int.toNat_of_nonneg hn]
      rw [List.sum_cons]
      ring

/-- Claim C1, counterexample: on the store holding the single slab
`[5, 7]`, `release 1` keeps the head byte `5`, not the tail byte `7`
that the claim predicts (the claim would leave the store `[[7]]`). -/
theorem c1_counterexample :
    release 1 [[5, 7]] = ([[5]], 1, 0) ∧ ([[5]] : Store) ≠ [[7]] := by
  constructor
  · rfl
  · decide

/-- Claim C1 as amended: when the release loop reaches a slab with
remaining amount `k`, `0 < k < L` where `L` is the slab length, the slab
is replaced by a freshly allocated slab whose content equals the first
`L - k` bytes of the original slab (its head, `List.take (L - k)`), the
following slabs are untouched, and the remaining amount becomes zero. -/
theorem c1_theorem (k : Int) (head : Slab) (rest : Store)
    (h1 : 0 < k) (h2 : k < (head.length : Int)) :
    releaseLoop k (head :: rest) =
      (head.take (head.length - k.toNat) :: rest, 0) := by
  have hle : ¬ (head.length : Int) ≤ k := not_le.mpr h2
  simp [releaseLoop, h1, hle]

/-- Witness for the amended claim C1 at `k = 1`, slab `[5, 7]`. -/
theorem c1_witness :
    (0 : Int) < 1 ∧ (1 : Int) < (([5, 7] : Slab).length : Int) ∧
    releaseLoop 1 [[5, 7]] =
      (([5, 7] : Slab).take (([5, 7] : Slab).length - (1 : Int).toNat) :: [], 0) :=
  ⟨by decide, by decide, c1_theorem 1 [5, 7] [] (by decide) (by decide)⟩

/-- Claim C4: for every non-negative release amount, the two returned
counters sum to the amount, the released count never exceeds the prior
store total, and the shortfall is `max 0 (amount - priorTotal)`. -/
theorem c4_theorem (amount : Int) (d : Store) (h : 0 ≤ amount) :
    (release amount d).2.1 + (release amount d).2.2 = amount ∧
    (release amount d).2.1 ≤ (totalBytes d : Int) ∧
    (release amount d).2.2 = max 0 (amount - (totalBytes d : Int)) := by
  have hsnd := releaseLoop_snd d amount h
  have hT : (0 : Int) ≤ totalBytes d := Int.natCast_nonneg _
  simp only [release]
  rw [hsnd]
  refine ⟨by ring, ?_, rfl⟩
  rcases le_total (amount - (totalBytes d : Int)) 0 with hc | hc
  · rw [max_eq_left hc]; omega
  · rw [max_eq_right hc]; omega

/-- Witness for claim C4 at `amount = 3` on the store `[[1, 1]]`. -/
theorem c4_witness :
    (0 : Int) ≤ 3 ∧
    ((release 3 [[1, 1]]).2.1 + (release 3 [[1, 1]]).2.2 = 3 ∧
     (release 3 [[1, 1]]).2.1 ≤ (totalBytes [[1, 1]] : Int) ∧
     (release 3 [[1, 1]]).2.2 = max 0 (3 - (totalBytes [[1, 1]] : Int))) :=
  ⟨by decide, c4_theorem 3 [[1, 1]] (by decide)⟩

/-- Claim C5: releasing at least the prior total `T` empties the store
(`totalBytes` becomes zero) with shortfall `amount - T`; in particular
releasing exactly `T` gives shortfall zero. -/
theorem c5_theorem (amount : Int) (d : Store)
    (h : (totalBytes d : Int) ≤ amount) :
    totalBytes (release amount d).1 = 0 ∧
    (release amount d).2.2 = amount - (totalBytes d : Int) ∧
    ((totalBytes d : Int) = amount → (release amount d).2.2 = 0) := by
  have hT : (0 : Int) ≤ totalBytes d := Int.natCast_nonneg _
  have h0 : 0 ≤ amount := le_trans hT h
  have hsnd := releaseLoop_snd d amount h0
  have htot := releaseLoop_total d amount h
  simp only [release]
  refine ⟨htot, ?_, ?_⟩
  · rw [hsnd, max_eq_right (by omega)]
  · intro he
    rw [hsnd, max_eq_right (by omega)]
    omega

/-- Witness for claim C5 at `amount = 5` on the store `[[1, 1, 1]]`. -/
theorem c5_witness :
    (totalBytes [[1, 1, 1]] : Int) ≤ 5 ∧
    (totalBytes (release 5 [[1, 1, 1]]).1 = 0 ∧
     (release 5 [[1, 1, 1]]).2.2 = 5 - (totalBytes [[1, 1, 1]] : Int) ∧
     ((totalBytes [[1, 1, 1]] : Int) = 5 → (release 5 [[1, 1, 1]]).2.2 = 0)) :=
  ⟨by decide, c5_theorem 5 [[1, 1, 1]] (by decide)⟩

/-- Claim C10: a negative release amount leaves the store completely
unchanged and returns `released = 0` and `notReleased = amount` (the
negative input itself, which differs from `max 0 (amount - total)`). -/
theorem c10_theorem (amount : Int) (d : Store) (h : amount < 0) :
    release amount d = (d, 0, amount) ∧
    amount ≠ max 0 (amount - (totalBytes d : Int)) := by
  constructor
  · simp [release, releaseLoop_nonpos d amount (le_of_lt h)]
  · have : (0 : Int) ≤ max 0 (amount - (totalBytes d : Int)) := le_max_left _ _
    omega

/-- Witness for claim C10 at `amount = -3` on the store `[[1]]`. -/
theorem c10_witness :
    (-3 : Int) < 0 ∧
    (release (-3) [[1]] = ([[1]], 0, -3) ∧
     (-3 : Int) ≠ max 0 (-3 - (totalBytes [[1]] : Int))) :=
  ⟨by decide, c10_theorem (-3) [[1]] (by decide)⟩

/-- Claim C9: the interactive validation accepts the negative input
`bytes=-1` (Go `strconv.Atoi` parses a leading minus sign), and the
subsequent `add(-1)` runs `make([]byte, -1)`, a runtime panic, on every
store. -/
theorem c9_theorem :
    parseBytes (some "-1") = Except.ok (-1) ∧
    ∀ d : Store, add (-1) d = none := by
  constructor
  · rfl
  · intro d
    simp [add]

/-- Claim C3, counterexample: the negative interactive input `bytes=-1`
passes validation (`parseBytes` returns it as a parsed amount) and the
`/rel` handler serves it as a normal response, not a client error. -/
theorem c3_counterexample :
    parseBytes (some "-1") = Except.ok (-1) ∧
    handleRel (some "-1") [] = ([], Resp.okRel 0 (-1)) ∧
    Resp.okRel 0 (-1) ≠ Resp.clientError := by
  refine ⟨rfl, rfl, by decide⟩

/-- Claim C3 as amended: an interactive amount is accepted only if it is
present and parses as an integer (negative integers included); on a
missing or non-numeric amount both handlers reject the request with a
client error and leave the slab store unchanged. -/
theorem c3_theorem (q : Option String) (d : Store)
    (h : isErr (parseBytes q) = true) :
    handleAdd q d = some (d, Resp.clientError) ∧
    handleRel q d = (d, Resp.clientError) := by
  cases hq : parseBytes q with
  | error e => exact ⟨by simp [handleAdd, hq], by simp [handleRel, hq]⟩
  | ok n => simp [isErr, hq] at h

/-- Witness for the amended claim C3 on the non-numeric input `12x`. -/
theorem c3_witness :
    isErr (parseBytes (some "12x")) = true ∧
    (handleAdd (some "12x") [[3]] = some ([[3]], Resp.clientError) ∧
     handleRel (some "12x") [[3]] = ([[3]], Resp.clientError)) :=
  ⟨rfl, c3_theorem (some "12x") [[3]] rfl⟩

/-- Claim C6: after a `reset` the total is zero, and a sequence of
non-negative `add` calls from there brings the total to exactly the sum
of the added amounts. -/
theorem c6_theorem (ns : List Int) (d0 : Store) (h : ∀ n ∈ ns, 0 ≤ n) :
    totalBytes (reset d0) = 0 ∧
    ∃ d2, addAll ns (reset d0) = some d2 ∧ (totalBytes d2 : Int) = ns.sum := by
  refine ⟨rfl, ?_⟩
  obtain ⟨d2, hd2, htot⟩ := addAll_total ns h (reset d0)
  exact ⟨d2, hd2, by simpa [reset, totalBytes] using htot⟩

/-- Witness for claim C6 with the adds `[2, 3]` after resetting `[[9]]`. -/
theorem c6_witness :
    (∀ n ∈ ([2, 3] : List Int), 0 ≤ n) ∧
    (totalBytes (reset [[9]]) = 0 ∧
     ∃ d2, addAll [2, 3] (reset [[9]]) = some d2 ∧
       (totalBytes d2 : Int) = ([2, 3] : List Int).sum) :=
  ⟨by decide, c6_theorem [2, 3] [[9]] (by decide)⟩

/-- Claim C8: a non-negative `add(size)` appends exactly one new slab of
exactly `size` bytes, and every byte of that slab is the non-zero
sentinel `1`. -/
theorem c8_theorem (size : Int) (d : Store) (h : 0 ≤ size) :
    add size d = some (d ++ [List.replicate size.toNat 1]) ∧
    (List.replicate size.toNat 1).length = size.toNat ∧
    ∀ b ∈ List.replicate size.toNat 1, b = 1 ∧ b ≠ 0 := by
  refine ⟨by simp [add, not_lt.mpr h], List.length_replicate .., ?_⟩
  intro b hb
  have := List.eq_of_mem_replicate hb
  subst this
  exact ⟨rfl, one_ne_zero⟩

/-- Witness for claim C8 at `size = 2` on the store `[[7]]`. -/
theorem c8_witness :
    (0 : Int) ≤ 2 ∧
    (add 2 [[7]] = some ([[7]] ++ [List.replicate (2 : Int).toNat 1]) ∧
     (List.replicate (2 : Int).toNat 1).length = (2 : Int).toNat ∧
     ∀ b ∈ List.replicate (2 : Int).toNat 1, b = 1 ∧ b ≠ 0) :=
  ⟨by decide, c8_theorem 2 [[7]] (by decide)⟩


theorem add_natCast (n : Nat) (d : Store) :
    add (n : Int) d = some (d ++ [List.replicate n 1]) := by
  have h : ¬ ((n : Int) < 0) := not_lt.mpr (Int.natCast_nonneg n)
  simp [add, h]

/-- Releasing exactly the length of the single stored slab nils it out. -/
theorem release_exact_replicate (n : Nat) :
    release (n : Int) [List.replicate n (1 : Nat)] = ([[]], (n : Int), 0) := by
  have hlen : (List.replicate n (1 : Nat)).length = n := List.length_replicate ..
  rcases Nat.eq_zero_or_pos n with h0 | hpos
  · subst h0; rfl
  · have h1 : (0 : Int) < n := by exact_mod_cast hpos
    have h2 : ((List.replicate n (1 : Nat)).length : Int) ≤ n := by rw [hlen]
    simp only [release, releaseLoop, if_pos h1, if_pos h2, hlen]
    norm_num

set_option maxRecDepth 4000

/-- Claim C2: evaluation of the scripted plan at the default ceiling
`L = 33554432` with a baseline `A = 50000000 > L`. The code has no
detection and no configuration-error report: `planGo` is total, and the
wrapping `uint64` subtraction silently produces an `available` of about
`1.8 * 10 ^ 19` bytes (far beyond the ceiling) and an equally absurd
`fill`, which scripted mode then passes straight to the allocation. -/
theorem c2_theorem :
    planGo 33554432 50000000 =
      (3355443, 18446744073693106048, 18446744073689750605) ∧
    33554432 < (planGo 33554432 50000000).2.1 := by
  refine ⟨by decide, by decide⟩

/-- Claim C7, counterexample: the plan does not compute
`reserved = floor(0.10 * L)` for every ceiling `L`. At `L = 2 ^ 60` the
float64 product `uint64(float64(L) * 0.10)` is exactly
`115292150460684704`, while `floor(0.10 * 2 ^ 60) = 2 ^ 60 / 10` is
`115292150460684697` (the binary64 nearest `0.10` is slightly above one
tenth, and here the product is exactly representable, so nothing rounds
back down). -/
theorem c7_counterexample :
    (planGo (2 ^ 60) 0).1 = 115292150460684704 ∧
    2 ^ 60 / 10 = 115292150460684697 ∧
    (planGo (2 ^ 60) 0).1 ≠ 2 ^ 60 / 10 := by
  refine ⟨by decide, by decide, by decide⟩

/-- Claim C7 as amended: the plan computes `reserved` as the float64
product `uint64(float64(L) * 0.10)` (which coincides with
`floor(0.10 * L)` at `L = 32000000`), `available = L - A` and
`fill = available - reserved` as unsigned subtractions; for
`L = 32000000` and `A = 2000000` this yields `reserved = 3200000`,
`available = 30000000` and `fill = 26800000`, and driving the store
through `add fill`, `release fill`, `add reserved` leaves totals `0` and
then `3200000`. -/
theorem c7_theorem :
    planGo 32000000 2000000 = (3200000, 30000000, 26800000) ∧
    reservedGo 32000000 = 32000000 / 10 ∧
    add 26800000 [] = some [List.replicate 26800000 1] ∧
    release 26800000 [List.replicate 26800000 1] = ([[]], 26800000, 0) ∧
    totalBytes ([[]] : Store) = 0 ∧
    add 3200000 [[]] = some [[], List.replicate 3200000 1] ∧
    totalBytes [[], List.replicate 3200000 1] = 3200000 := by
  refine ⟨by decide, by decide, ?_, ?_, rfl, ?_, ?_⟩
  · have := add_natCast 26800000 []
    norm_num at this
    exact this
  · have := release_exact_replicate 26800000
    norm_num at this
    exact this
  · have := add_natCast 3200000 [[]]
    norm_num at this
    exact this
  · simp only [totalBytes, List.map_cons, List.map_nil, List.length_replicate,
      List.length_nil, List.sum_cons, List.sum_nil]
    norm_num

end Trampoline
